import Mathlib

/-!
Verification development for the trademark/patent index and query engine.

The embedding models the repository's two Python modules:
* backend (normalizer, activity derivation, mark/patent retrieval, risk
  scoring, request handler), and
* the index builder (text-file ingestion with encoding fallback, schema
  with a unique natural key, spreadsheet serial dates, owner-type
  inference).

All string operations are modelled over `List Char` (one entry per code
point, matching Python's `str` indexing) with `String` wrappers, so that
every definition evaluates inside the kernel.
-/

namespace TrademarkAPI

/-! ## Basic character/string helpers -/

/-- Characters kept by the normalizer: the class [a-z0-9] (checked after
lower-casing, as in the source regex). -/
def isAlnumLower (c : Char) : Bool :=
  ('a' ≤ c && c ≤ 'z') || ('0' ≤ c && c ≤ '9')

/-- ASCII whitespace recognised by Python's str.strip (the data handled by
the repository is ASCII; we model the ASCII subset). -/
def isPyWS (c : Char) : Bool :=
  c = ' ' || c = '\t' || c = '\n' || c = '\x0d' || c = '\x0b' || c = '\x0c'

/-- Python str.strip modelled on char lists. -/
def stripWS (l : List Char) : List Char :=
  ((l.dropWhile isPyWS).reverse.dropWhile isPyWS).reverse

/-- Python str.strip on strings. -/
def pyStrip (s : String) : String := ⟨stripWS s.data⟩

/-- Python str.lower on strings (ASCII model). -/
def pyLower (s : String) : String := ⟨s.data.map Char.toLower⟩

/-- List-prefix test that reduces in the kernel. -/
def isPrefixL : List Char → List Char → Bool
  | [], _ => true
  | _ :: _, [] => false
  | a :: as, b :: bs => a = b && isPrefixL as bs

/-- Substring containment (Python's `x in s`). -/
def containsSub (hay pat : List Char) : Bool :=
  match hay with
  | [] => isPrefixL pat []
  | _ :: t => isPrefixL pat hay || containsSub t pat

/-- String-level substring containment. -/
def strContains (hay pat : String) : Bool := containsSub hay.data pat.data

/-! ## The text normalizer (`norm_text`)

Source: lower-case the string, replace every run matching [^a-z0-9]+ by a
single space, collapse whitespace runs, strip.  Replacing each non-alnum
character by one space and then collapsing adjacent spaces is the same
composite; that is how we model the two regex substitutions. -/

/-- One character of the normalizer: lower-case, then blank anything
outside [a-z0-9]. -/
def normChar (c : Char) : Char :=
  let c := c.toLower
  if isAlnumLower c then c else ' '

/-- Collapse every run of adjacent spaces to a single space. -/
def collapseSpaces : List Char → List Char
  | [] => []
  | [c] => [c]
  | c :: d :: cs =>
    if c = ' ' && d = ' ' then collapseSpaces (d :: cs)
    else c :: collapseSpaces (d :: cs)

/-- Strip leading and trailing spaces (after the substitutions the string
contains no other whitespace). -/
def stripSpaces (l : List Char) : List Char :=
  ((l.dropWhile (· = ' ')).reverse.dropWhile (· = ' ')).reverse

/-- `norm_text` on char lists. -/
def normTextL (l : List Char) : List Char :=
  stripSpaces (collapseSpaces (l.map normChar))

/-- `norm_text` (backend.py and build_index.py define identical copies). -/
def normText (s : String) : String := ⟨normTextL s.data⟩

/-! ### Facts about the normalizer needed for idempotence -/

/-- No two adjacent spaces. -/
def NoDblSp (l : List Char) : Prop :=
  List.Chain' (fun a b => ¬(a = ' ' ∧ b = ' ')) l

/-! ## Dates

Python's datetime is proleptic Gregorian.  `parseYMD` models
`datetime.strptime(s, "%Y-%m-%d")`: the %Y directive demands exactly four
digits, while %m and %d accept one or two digits (zero padding optional);
the resulting triple is validated against the real calendar and the year
range starting at 1. -/

structure YMD where
  y : Nat
  m : Nat
  d : Nat
deriving DecidableEq

def isLeap (y : Nat) : Bool :=
  y % 4 = 0 && (y % 100 ≠ 0 || y % 400 = 0)

def daysInMonth (y m : Nat) : Nat :=
  if m = 2 then (if isLeap y then 29 else 28)
  else if m = 4 || m = 6 || m = 9 || m = 11 then 30
  else 31

/-- Strict date order on (year, month, day) triples. -/
def ymdLt (a b : YMD) : Bool :=
  a.y < b.y || (a.y = b.y && (a.m < b.m || (a.m = b.m && a.d < b.d)))

def digitVal (c : Char) : Nat := c.toNat - 48

def digitsToNat (l : List Char) : Nat :=
  l.foldl (fun n c => n * 10 + digitVal c) 0

/-- Python str.split(sep) on char lists (keeps empty segments). -/
def splitOnChar (sep : Char) : List Char → List (List Char)
  | [] => [[]]
  | c :: cs =>
    match splitOnChar sep cs with
    | [] => [[c]]
    | r :: rs => if c = sep then [] :: r :: rs else (c :: r) :: rs

/-- `datetime.strptime(s, "%Y-%m-%d")` as a total parser. -/
def parseYMD (l : List Char) : Option YMD :=
  match splitOnChar '-' l with
  | [ys, ms, ds] =>
    if ys.length = 4 && ys.all Char.isDigit &&
       (ms.length = 1 || ms.length = 2) && ms.all Char.isDigit &&
       (ds.length = 1 || ds.length = 2) && ds.all Char.isDigit then
      let y := digitsToNat ys
      let m := digitsToNat ms
      let d := digitsToNat ds
      if 1 ≤ y && 1 ≤ m && m ≤ 12 && 1 ≤ d && d ≤ daysInMonth y m then
        some ⟨y, m, d⟩
      else none
    else none
  | _ => none

/-- Strict zero-padded YYYY-MM-DD parse, as the specification sentence for
the activity rule words it (used to compare spec and code behaviour). -/
def parseYMDStrict (l : List Char) : Option YMD :=
  match splitOnChar '-' l with
  | [ys, ms, ds] =>
    if ys.length = 4 && ys.all Char.isDigit &&
       ms.length = 2 && ms.all Char.isDigit &&
       ds.length = 2 && ds.all Char.isDigit then
      let y := digitsToNat ys
      let m := digitsToNat ms
      let d := digitsToNat ds
      if 1 ≤ y && 1 ≤ m && m ≤ 12 && 1 ≤ d && d ≤ daysInMonth y m then
        some ⟨y, m, d⟩
      else none
    else none
  | _ => none

/-- Days from the start of year `y` to the start of month `m`. -/
def daysBeforeMonth (y m : Nat) : Nat :=
  (List.range (m - 1)).foldl (fun acc i => acc + daysInMonth y (i + 1)) 0

/-- Proleptic-Gregorian ordinal (Python date.toordinal). -/
def toOrdinal (dt : YMD) : Nat :=
  365 * (dt.y - 1) + (dt.y - 1) / 4 - (dt.y - 1) / 100 + (dt.y - 1) / 400 +
    daysBeforeMonth dt.y dt.m + dt.d

/-- `years_since`: whole 365-day blocks since the given date, clamped below
at zero; None when the field is empty or unparsable. -/
def yearsSince (today : YMD) (dateStr : String) : Option Int :=
  if dateStr = "" then none
  else
    match parseYMD dateStr.data with
    | none => none
    | some d =>
      let delta : Int := (toOrdinal today : Int) - (toOrdinal d : Int)
      if delta < 0 then some 0 else some (delta / 365)

/-! ## Activity derivation for marks (`is_active`) -/

def deadStatuses : List String :=
  ["dead", "expired", "withdrawn", "revoked", "cancelled", "removed"]

/-- `is_active(status, expired)`, with the current UTC date passed
explicitly. -/
def isActive (today : YMD) (status expired : String) : Bool :=
  let statusNorm := pyLower (pyStrip status)
  if deadStatuses.contains statusNorm then false
  else if expired = "" then true
  else
    match parseYMD expired.data with
    | some exp => if ymdLt exp today then false else true
    | none => true

/-! ## Spreadsheet serial dates (`excel_date_to_iso`) -/

def nullValues : List String := ["", "NULL", "null", "N/A", "n/a"]

/-- Sign prefix of a numeric literal. -/
def splitSign (l : List Char) : Int × List Char :=
  match l with
  | c :: r => if c = '+' then (1, r) else if c = '-' then (-1, r) else (1, c :: r)
  | [] => (1, [])

/-- The value of a Python float() call: an exact (numerator, positive
denominator) fraction standing in for a finite float, a signed infinity,
or NaN.  Rounding of a decimal literal to the nearest binary float is
idealized away (finite literals beyond the float range overflow to
infinity in Python, which below coincides observably with the date
overflow; positive subnormal underflow to 0.0 is not modelled). -/
inductive PyFloat
  | finite (num : Int) (den : Nat)
  | inf (neg : Bool)
  | nan
deriving DecidableEq

/-- A character that may appear in a Python digit group: an (ASCII) digit
or a grouping underscore. -/
def isDigitU (c : Char) : Bool := c.isDigit || c = '_'

/-- Tail of a Python digitpart after its leading digit: every underscore
must be followed (and so also preceded) by a digit. -/
def dpRest : List Char → Bool
  | [] => true
  | c :: r =>
    if c = '_' then
      match r with
      | [] => false
      | d :: r2 => d.isDigit && dpRest r2
    else c.isDigit && dpRest r

/-- A valid Python digitpart: nonempty, starts with a digit, underscores
only between digits (so "1_0" is valid, "_1", "1_", "1__0" are not). -/
def validDigitPart (l : List Char) : Bool :=
  match l with
  | [] => false
  | c :: r => c.isDigit && dpRest r

/-- Optional exponent suffix of a decimal literal. -/
def parseExpTail (sgn : Int) (num den : Nat) : List Char → Option PyFloat
  | [] => some (.finite (sgn * num) den)
  | c :: r =>
    if c = 'e' || c = 'E' then
      let sr := splitSign r
      let ed := sr.2.takeWhile isDigitU
      if !validDigitPart ed || !(sr.2.drop ed.length).isEmpty then none
      else
        let e := digitsToNat (ed.filter (fun c => c ≠ '_'))
        if 0 ≤ sr.1 then some (.finite (sgn * (num * 10 ^ e)) den)
        else some (.finite (sgn * num) (den * 10 ^ e))
    else none

/-- Python float() on an already-stripped string (the caller strips
first, and float() itself strips the same whitespace): an optional sign,
then "inf"/"infinity"/"nan" case-insensitively, or a decimal literal —
digitparts with optional grouping underscores, optional point, optional
exponent.  ASCII digits only (the repository's data is ASCII). -/
def parseFloatPy (l : List Char) : Option PyFloat :=
  let s := splitSign l
  let low := s.2.map Char.toLower
  if low = "inf".data ∨ low = "infinity".data then some (.inf (decide (s.1 < 0)))
  else if low = "nan".data then some .nan
  else
    let ip := s.2.takeWhile isDigitU
    if !ip.isEmpty && !validDigitPart ip then none
    else
      let r1 := s.2.drop ip.length
      let ipd := ip.filter (fun c => c ≠ '_')
      match r1 with
      | '.' :: r2 =>
        let fp := r2.takeWhile isDigitU
        if !fp.isEmpty && !validDigitPart fp then none
        else if ip.isEmpty && fp.isEmpty then none
        else
          let r3 := r2.drop fp.length
          let fpd := fp.filter (fun c => c ≠ '_')
          parseExpTail s.1 (digitsToNat ipd * 10 ^ fpd.length + digitsToNat fpd)
            (10 ^ fpd.length) r3
      | _ =>
        if ip.isEmpty then none
        else parseExpTail s.1 (digitsToNat ipd) 1 r1

def digitChar (n : Nat) : Char := Char.ofNat (48 + n)

def pad2 (n : Nat) : List Char := [digitChar (n / 10 % 10), digitChar (n % 10)]

def pad4 (n : Nat) : List Char :=
  [digitChar (n / 1000 % 10), digitChar (n / 100 % 10),
   digitChar (n / 10 % 10), digitChar (n % 10)]

/-- date.isoformat (years in the datetime-supported range 1..9999). -/
def isoFormat (dt : YMD) : String :=
  ⟨pad4 dt.y ++ '-' :: (pad2 dt.m ++ '-' :: pad2 dt.d)⟩

/-- Successor day in the proleptic Gregorian calendar. -/
def nextDay (dt : YMD) : YMD :=
  if dt.d < daysInMonth dt.y dt.m then ⟨dt.y, dt.m, dt.d + 1⟩
  else if dt.m < 12 then ⟨dt.y, dt.m + 1, 1⟩
  else ⟨dt.y + 1, 1, 1⟩

/-- date + timedelta(days=n). -/
def addDays : YMD → Nat → YMD
  | dt, 0 => dt
  | dt, n + 1 => addDays (nextDay dt) n

/-- The conventional spreadsheet epoch. -/
def excelEpoch : YMD := ⟨1899, 12, 30⟩

/-- Serials strictly above this (ordinal distance from the epoch to
date.max = 9999-12-31) make `date + timedelta` raise OverflowError. -/
def maxExcelSerial : Nat := 2958465

/-- Body of `excel_date_to_iso` after the initial strip rebinding.  Empty
and null sentinels map to empty; finite values ≤ 0 and negative infinity
map to empty; a positive finite value is truncated to whole days past the
epoch (Python int() truncates toward zero, `Int.tdiv` on the fraction)
provided the resulting date fits the datetime range — beyond
`maxExcelSerial`, and for positive infinity (int(inf)), the OverflowError
is NOT caught by the `except ValueError` and aborts the caller, modelled
as `none`; NaN makes int() raise the ValueError that IS caught, and a
string float() rejects raises it too, so both return the stripped self. -/
def excelAfterStrip (t : List Char) : Option String :=
  if t.isEmpty || nullValues.contains ⟨t⟩ then some ""
  else
    match parseFloatPy t with
    | some (.finite n d) =>
      if n ≤ 0 then some ""
      else
        if (n.tdiv d).toNat ≤ maxExcelSerial then
          some (isoFormat (addDays excelEpoch (n.tdiv d).toNat))
        else none
    | some (.inf true) => some ""
    | some (.inf false) => none
    | some .nan => some (⟨t⟩ : String)
    | none => some (⟨t⟩ : String)

/-- `excel_date_to_iso`; `none` is the uncaught-OverflowError path. -/
def excelDateToIso (s : String) : Option String := excelAfterStrip (stripWS s.data)

/-! ## Owner-type inference (`infer_owner_type`) -/

def companyTokens : List String :=
  [" ltd", " limited", " llc", " inc", " corp", " gmbh", " plc", " llp"]

def inferOwnerType (name : String) : String :=
  if name = "" then "unknown"
  else
    let n := pyLower name
    if companyTokens.any (fun t => strContains n t) then "company"
    else if strContains n " and " || strContains n " & " then "company"
    else "individual_or_other"

/-! ## The marks table and two-tier retrieval (`query_candidates`) -/

/-- One row of the `marks` table (all columns TEXT). -/
structure Mark where
  reg_no : String
  mark_text : String
  mark_text_norm : String
  owner_name : String
  owner_type : String
  country : String
  status : String
  category : String
  mark_type : String
  filed : String
  published : String
  registered : String
  expired : String
  renewal_due : String
  class_codes : String
  goods_services : String
  source_file : String
deriving DecidableEq

/-- `resolve_countries`: fixed alias table, unknown selectors pass through
as a literal single-country filter. -/
def resolveCountries (country : String) : List String :=
  let c := pyLower (pyStrip country)
  if c ∈ ["all", "all countries", "any"] then
    ["United Kingdom", "European Union", "United States", "Rest of World"]
  else if c ∈ ["uk", "united kingdom", "uk only"] then ["United Kingdom"]
  else if c ∈ ["eu", "european union", "eu only"] then ["European Union"]
  else if c ∈ ["us", "united states", "us only"] then ["United States"]
  else if c ∈ ["uk & eu", "uk and eu", "uk+eu"] then ["United Kingdom", "European Union"]
  else if c ∈ ["rest of world", "row", "world"] then ["Rest of World"]
  else [country]

/-- `query_candidates`: exact tier, then (for terms of length ≥ 4) a LIKE
prefix tier, both filtered to the resolved country set and capped.  The
LIKE pattern is the normalized term followed by a percent wildcard with
case_sensitive_like on; normalized text contains no LIKE metacharacters,
so it is exactly a prefix test.  A SELECT with LIMIT is modelled as
filtering the table rows in order and taking the cap. -/
def queryCandidates (db : List Mark) (termNorm country : String) (limit : Nat) : List Mark :=
  let countries := resolveCountries country
  let rows :=
    (db.filter fun m => countries.contains m.country && m.mark_text_norm == termNorm).take limit
  if rows.isEmpty then
    if termNorm.data.length < 4 then []
    else
      let rows2 :=
        (db.filter fun m =>
          countries.contains m.country && isPrefixL termNorm.data m.mark_text_norm.data).take limit
      if rows2.isEmpty then [] else rows2
  else rows

/-- Specification-side description of the exact tier. -/
def exactTier (db : List Mark) (termNorm : String) (countries : List String)
    (limit : Nat) : List Mark :=
  (db.filter fun m => countries.contains m.country && m.mark_text_norm == termNorm).take limit

/-- Specification-side description of the prefix tier. -/
def likeTier (db : List Mark) (termNorm : String) (countries : List String)
    (limit : Nat) : List Mark :=
  (db.filter fun m =>
    countries.contains m.country && isPrefixL termNorm.data m.mark_text_norm.data).take limit

/-- Sample rows used for closed instances of the retrieval theorems. -/
def ukMark : Mark :=
  { reg_no := "UK0001"
    mark_text := "Acme"
    mark_text_norm := "acme"
    owner_name := "Acme Ltd"
    owner_type := "company"
    country := "United Kingdom"
    status := "Registered"
    category := ""
    mark_type := ""
    filed := ""
    published := ""
    registered := ""
    expired := ""
    renewal_due := ""
    class_codes := ""
    goods_services := ""
    source_file := "marks.txt" }

/-- A second sample row that only the prefix tier would return. -/
def ukMark2 : Mark :=
  { ukMark with
    reg_no := "UK0002"
    mark_text := "Acme Robotics"
    mark_text_norm := "acme robotics" }

/-! ## Risk scoring (`score_risk`)

Similarity values are exact rationals standing in for the Python floats;
the two thresholds are the exact decimals 0.92 and 0.85. -/

/-- The fields of a scored mark summary that `score_risk` reads. -/
structure ScoredRecord where
  active : Bool
  similarity : ℚ
  class_codes : List String
deriving DecidableEq

/-- Non-empty intersection of the class filter with a record's classes. -/
def classOverlap (classFilter codes : List String) : Bool :=
  classFilter.any (fun c => codes.contains c)

/-- The (strong, medium) counters accumulated by `score_risk`'s loop. -/
def riskCounts (ms : List ScoredRecord) (classFilter : List String) : Nat × Nat :=
  ms.foldl
    (fun p m =>
      if !classFilter.isEmpty && !classOverlap classFilter m.class_codes then p
      else if m.active && decide (mkRat 92 100 ≤ m.similarity) then (p.1 + 1, p.2)
      else if m.active && decide (mkRat 85 100 ≤ m.similarity) then (p.1, p.2 + 1)
      else p)
    (0, 0)

/-- `score_risk`. -/
def scoreRisk (ms : List ScoredRecord) (classFilter : List String) : String :=
  let counts := riskCounts ms classFilter
  if 0 < counts.1 then "high" else if 0 < counts.2 then "medium" else "low"

/-- A record survives the class-overlap filter. -/
def passesClassFilter (classFilter : List String) (m : ScoredRecord) : Bool :=
  classFilter.isEmpty || classOverlap classFilter m.class_codes

/-- Specification-side strong record: passes the filter, active, 0.92 or
above. -/
def strongRecord (classFilter : List String) (m : ScoredRecord) : Bool :=
  passesClassFilter classFilter m && m.active && decide (mkRat 92 100 ≤ m.similarity)

/-- Specification-side medium record: passes the filter, active,
similarity in [0.85, 0.92). -/
def mediumRecord (classFilter : List String) (m : ScoredRecord) : Bool :=
  passesClassFilter classFilter m && m.active &&
    decide (mkRat 85 100 ≤ m.similarity) && decide (m.similarity < mkRat 92 100)

/-! ## Deduplicating ingestion (`insert_batch` with a UNIQUE natural key)

The `marks` table declares `reg_no TEXT UNIQUE` and every insert is
INSERT OR IGNORE, so a row whose key is already present is dropped.  The
batches of at most 5000 rows are executed sequentially, so the whole run
is one left fold over the concatenated record sequence. -/

/-- Does a row with this natural key already exist? -/
def regNoExists (db : List Mark) (k : String) : Bool :=
  db.any (fun m => m.reg_no == k)

/-- INSERT OR IGNORE of a single row into the marks table. -/
def insertOrIgnore (db : List Mark) (r : Mark) : List Mark :=
  if regNoExists db r.reg_no then db else db ++ [r]

/-- `insert_batch` over a whole ingestion run (sequence of rows in
ingestion order, possibly spanning several source files). -/
def insertMarks (db : List Mark) (batch : List Mark) : List Mark :=
  batch.foldl insertOrIgnore db

/-! ## Delimited-text ingestion with encoding fallback (`read_rows`,
`ingest_file`, `main`)

A source file is modelled by its path and by the outcome of decoding plus
pipe-splitting under each encoding of the fallback chain (`none` for a
decode error).  Byte-level codec behaviour is below the granularity the
claims speak about; everything downstream of decoding is modelled
faithfully. -/

inductive Enc
  | utf16
  | utf16le
  | utf16be
  | utf8sig
deriving DecidableEq

/-- The fixed encoding fallback chain, in source order. -/
def encChain : List Enc := [.utf16, .utf16le, .utf16be, .utf8sig]

structure TxtFile where
  path : String
  decode : Enc → Option (List (List String))

/-- Header cell cleanup: remove BOM characters, then strip. -/
def cleanHeader (h : String) : String :=
  pyStrip ⟨h.data.filter (fun c => c ≠ '﻿')⟩

/-- The two mandatory columns. -/
def headerOk (headers : List String) : Bool :=
  headers.contains "Trade Mark" && headers.contains "Mark Text"

/-- One encoding attempt of `read_rows`: decode, take the header row,
clean it, require the mandatory columns; empty (falsy) data rows are
skipped.  Any failure falls through to the next encoding. -/
def tryEncoding (f : TxtFile) (e : Enc) : Option (List String × List (List String)) :=
  match f.decode e with
  | none => none
  | some [] => none
  | some (hdr :: rows) =>
    let hdr := hdr.map cleanHeader
    if headerOk hdr then some (hdr, rows.filter (fun r => !r.isEmpty)) else none

/-- `read_rows` over a given encoding list. -/
def readRowsGo (f : TxtFile) : List Enc → Except String (List String × List (List String))
  | [] => .error ("Unsupported or invalid trademark text file: " ++ f.path)
  | e :: es =>
    match tryEncoding f e with
    | some res => .ok res
    | none => readRowsGo f es

/-- `read_rows`: first encoding that decodes and shows both mandatory
header columns wins; otherwise a descriptive ValueError is raised. -/
def readRows (f : TxtFile) : Except String (List String × List (List String)) :=
  readRowsGo f encChain

/-- dict(zip(headers, row)) lookup, Python's later-entry-wins; missing
key yields empty. -/
def rowGet (pairs : List (String × String)) (key : String) : String :=
  (pairs.foldl (fun acc p => if p.1 == key then some p.2 else acc) none).getD ""

/-- Pad short rows with empty fields, trim long rows, to header length. -/
def padRow (headers row : List String) : List String :=
  (row ++ List.replicate (headers.length - row.length) "").take headers.length

/-- `parse_date`: strip; the value is returned whether or not it parses
as YYYY-MM-DD (dates are never fabricated), so the net effect is a strip. -/
def parseDatePy (s : String) : String := pyStrip s

/-- Python int() on the text after the "Class" column-name stem. -/
def parseIntPy (l : List Char) : Option Int :=
  let t := stripWS l
  match t with
  | [] => none
  | c :: r =>
    if c = '+' || c = '-' then
      if !r.isEmpty && r.all Char.isDigit then
        some ((if c = '-' then -1 else 1) * (digitsToNat r : Int))
      else none
    else if t.all Char.isDigit then some ((digitsToNat t : Int)) else none

def natDigitsF : Nat → Nat → List Char
  | 0, _ => []
  | f + 1, n => if n < 10 then [digitChar n] else natDigitsF f (n / 10) ++ [digitChar (n % 10)]

/-- Python str() of an int. -/
def intToStr (i : Int) : String :=
  match i with
  | .ofNat n => ⟨natDigitsF (n + 1) n⟩
  | .negSucc m => ⟨'-' :: natDigitsF (m + 2) (m + 1)⟩

def falsyTokens : List String := ["", "0", "No", "N", "False"]

def joinComma (l : List String) : String := ⟨List.intercalate [','] (l.map String.data)⟩

/-- `build_class_codes`: class-numbered columns whose value is not a falsy
token contribute their number. -/
def buildClassCodes (pairs : List (String × String)) : String :=
  joinComma (pairs.filterMap (fun p =>
    if isPrefixL "Class".data p.1.data then
      match parseIntPy (p.1.data.drop 5) with
      | some n =>
        if falsyTokens.contains (pyStrip p.2) then none else some (intToStr n)
      | none => none
    else none))

/-- The record built from one delimited-text data row. -/
def rowToMark (srcPath : String) (headers row : List String) : Mark :=
  let row := padRow headers row
  let pairs := headers.zip row
  { reg_no := pyStrip (rowGet pairs "Trade Mark")
    mark_text := pyStrip (rowGet pairs "Mark Text")
    mark_text_norm := normText (pyStrip (rowGet pairs "Mark Text"))
    owner_name := pyStrip (rowGet pairs "Name")
    owner_type := inferOwnerType (pyStrip (rowGet pairs "Name"))
    country := pyStrip (rowGet pairs "Country")
    status := pyStrip (rowGet pairs "Status")
    category := pyStrip (rowGet pairs "Category of Mark")
    mark_type := pyStrip (rowGet pairs "Mark Type")
    filed := parseDatePy (rowGet pairs "Filed")
    published := parseDatePy (rowGet pairs "Published")
    registered := parseDatePy (rowGet pairs "Registered")
    expired := parseDatePy (rowGet pairs "Expired")
    renewal_due := parseDatePy (rowGet pairs "Renewal Due Date")
    class_codes := buildClassCodes pairs
    goods_services := ""
    source_file := srcPath }

/-- `ingest_file`: read the rows (a raised ValueError propagates — there
is no try/except around the generator) and batch-insert them. -/
def ingestFile (db : List Mark) (f : TxtFile) : Except String (List Mark) :=
  match readRows f with
  | .error e => .error e
  | .ok hr => .ok (insertMarks db (hr.2.map (rowToMark f.path hr.1)))

/-- The per-file loop of `main`, which has no exception handling: the
first raising file aborts the whole run. -/
def ingestAll (db : List Mark) : List TxtFile → Except String (List Mark)
  | [] => .ok db
  | f :: fs =>
    match ingestFile db f with
    | .error e => .error e
    | .ok db2 => ingestAll db2 fs

/-- A file no encoding can decode. -/
def badFile : TxtFile := { path := "bad.txt", decode := fun _ => none }

/-- A well-formed file with one record. -/
def goodFile : TxtFile :=
  { path := "good.txt"
    decode := fun e =>
      if e = Enc.utf16 then
        some [["Trade Mark", "Mark Text", "Name", "Country", "Status"],
              ["UK0001", "Acme", "Acme Ltd", "United Kingdom", "Registered"]]
      else none }

/-! ## The patents table (`ingest_patents`, `query_patents`,
`patent_active`)

Connections opened by the backend set PRAGMA case_sensitive_like=ON, so
the LIKE prefix patterns built from the (lower-case) normalized term are
case-sensitive; the term contains no LIKE metacharacters. -/

/-- One row of the `patents` table (all columns TEXT). -/
structure Patent where
  application_number : String
  publication_number : String
  ipsum : String
  earliest_filing_date : String
  filing_date : String
  lodged_date : String
  publication_a_date : String
  publication_b_date : String
  applicant_name : String
  applicant_country_code : String
  applicant_postcode : String
  applicant_county : String
  applicant_region : String
  applicant_country : String
  ipc7 : String
  ipc8 : String
  pct_filing_date : String
  pct_publication_date : String
  last_renewal_date : String
  last_annuity_year : String
  date_not_in_force : String
  reason_not_in_force : String
  status : String
  source_file : String
deriving DecidableEq

/-- `query_patents`: prefix-only (case-sensitive) search over applicant
name, application number and publication number, same 4-character minimum
and cap, no country condition. -/
def queryPatents (db : List Patent) (termNorm : String) (limit : Nat) : List Patent :=
  if termNorm.data.length < 4 then []
  else
    (db.filter fun p =>
      isPrefixL termNorm.data p.applicant_name.data ||
      isPrefixL termNorm.data p.application_number.data ||
      isPrefixL termNorm.data p.publication_number.data).take limit

/-- `patent_active`: inactive when a not-in-force date is present or the
lower-cased status contains a dead marker. -/
def patentActive (status dateNotInForce : String) : Bool :=
  let s := pyLower (pyStrip status)
  if dateNotInForce = "" then
    if ["lapsed", "ceased", "withdrawn", "revoked"].any (fun x => strContains s x) then
      false
    else true
  else false

/-- `clean_cell`: strip, null sentinels to empty. -/
def cleanCell (v : String) : String :=
  let t := pyStrip v
  if nullValues.contains t then "" else t

/-- The patent record built from one spreadsheet data row (short rows are
padded; spreadsheet serial dates converted).  An OverflowError raised by a
serial-date conversion propagates out of `ingest_patents`, so the builder
is `Option`-valued. -/
def rowToPatent (srcPath : String) (headers row : List String) : Option Patent := do
  let row :=
    if row.length < headers.length then
      row ++ List.replicate (headers.length - row.length) ""
    else row
  let pairs := headers.zip row
  let efd ← excelDateToIso (cleanCell (rowGet pairs "Earliest filing date"))
  let fd ← excelDateToIso (cleanCell (rowGet pairs "Filing date"))
  let ld ← excelDateToIso (cleanCell (rowGet pairs "Lodged date"))
  let pa ← excelDateToIso (cleanCell (rowGet pairs "A publication date"))
  let pb ← excelDateToIso (cleanCell (rowGet pairs "B publication date"))
  let pctf ← excelDateToIso (cleanCell (rowGet pairs "PCT filing date"))
  let pctp ← excelDateToIso (cleanCell (rowGet pairs "PCT publication date"))
  let lrd ← excelDateToIso (cleanCell (rowGet pairs "Last renewal date"))
  let dnif ← excelDateToIso (cleanCell (rowGet pairs "Date not in force"))
  pure
    { application_number := cleanCell (rowGet pairs "Application number")
      publication_number := cleanCell (rowGet pairs "Publication number")
      ipsum := cleanCell (rowGet pairs "IPSUM")
      earliest_filing_date := efd
      filing_date := fd
      lodged_date := ld
      publication_a_date := pa
      publication_b_date := pb
      applicant_name := cleanCell (rowGet pairs "Applicant name")
      applicant_country_code := cleanCell (rowGet pairs "Applicant Country code")
      applicant_postcode := cleanCell (rowGet pairs "Applicant postcode")
      applicant_county := cleanCell (rowGet pairs "Applicant county")
      applicant_region := cleanCell (rowGet pairs "Applicant region")
      applicant_country := cleanCell (rowGet pairs "Applicant country")
      ipc7 := cleanCell (rowGet pairs "IPC7")
      ipc8 := cleanCell (rowGet pairs "IPC8")
      pct_filing_date := pctf
      pct_publication_date := pctp
      last_renewal_date := lrd
      last_annuity_year := cleanCell (rowGet pairs "Last annuity year")
      date_not_in_force := dnif
      reason_not_in_force := cleanCell (rowGet pairs "Reason not in force")
      status := cleanCell (rowGet pairs "Status")
      source_file := srcPath }

/-- The spreadsheet header and the two sample applicant rows of the
end-to-end scenario (no not-in-force date set). -/
def patentHeaders : List String :=
  ["Application number", "Publication number", "Applicant name", "Status",
   "Date not in force"]

def acmePatents : List Patent :=
  (rowToPatent "patents.xlsx" patentHeaders
    ["GB0001.1", "GB2600001", "Acme Robotics Ltd", "", ""]).toList ++
  (rowToPatent "patents.xlsx" patentHeaders
    ["GB0002.2", "GB2600002", "Acme Robotics Ltd", "", ""]).toList

/-- A United States mark row, letting the country gate pass while the
patents side is exercised. -/
def usMark : Mark :=
  { ukMark with reg_no := "US0001", country := "United States" }

/-! ## Similarity (difflib SequenceMatcher ratio)

Ratcliff-Obershelp over char lists: repeated longest matching blocks; the
ratio is 2·M/(len a + len b) as an exact rational (standing in for the
float).  With the default isjunk=None the junk set is empty; autojunk
only prunes popular characters from the index when b has 200+ chars. -/

/-- Occurrence positions of a char in b, ascending. -/
def positionsOf (c : Char) (b : List Char) : List Nat :=
  b.enum.filterMap (fun p => if p.2 = c then some p.1 else none)

def countChar (c : Char) (b : List Char) : Nat :=
  (b.filter (fun x => x = c)).length

/-- autojunk popularity: for b of length ≥ 200, chars occurring more than
len/100 + 1 times are dropped from the occurrence index. -/
def isPopular (b : List Char) (c : Char) : Bool :=
  b.length ≥ 200 && decide (countChar c b > b.length / 100 + 1)

def b2j (b : List Char) (c : Char) : List Nat :=
  if isPopular b c then [] else positionsOf c b

structure FlmState where
  besti : Nat
  bestj : Nat
  bestsize : Nat
deriving DecidableEq

/-- Assoc-list lookup for the j2len map (missing key gives 0). -/
def alGet (al : List (Nat × Nat)) (j : Nat) : Nat :=
  match al.find? (fun p => p.1 = j) with
  | some p => p.2
  | none => 0

/-- Inner loop over the occurrence list of a[i] in b: j below blo is
skipped, j at bhi or beyond stops the scan (positions are ascending);
otherwise the diagonal run length is extended and the best match
updated. -/
def flmRow (blo bhi i : Nat) (j2len : List (Nat × Nat)) :
    List Nat → List (Nat × Nat) → FlmState → List (Nat × Nat) × FlmState
  | [], newj2len, st => (newj2len, st)
  | j :: js, newj2len, st =>
    if j < blo then flmRow blo bhi i j2len js newj2len st
    else if bhi ≤ j then (newj2len, st)
    else
      let k := (if j = 0 then 0 else alGet j2len (j - 1)) + 1
      let st2 := if k > st.bestsize then ⟨i + 1 - k, j + 1 - k, k⟩ else st
      flmRow blo bhi i j2len js ((j, k) :: newj2len) st2

/-- Dynamic-programming phase of find_longest_match. -/
def flmDP (a b : List Char) (alo ahi blo bhi : Nat) : FlmState :=
  ((List.range' alo (ahi - alo)).foldl
    (fun (acc : List (Nat × Nat) × FlmState) i =>
      flmRow blo bhi i acc.1 (b2j b (a.getD i ' ')) [] acc.2)
    ([], ⟨alo, blo, 0⟩)).2

/-- Extend the best block backward over equal characters (the junk set is
empty, so the junk extension loops never fire). -/
def extendBack (a b : List Char) (alo blo : Nat) : Nat → FlmState → FlmState
  | 0, st => st
  | f + 1, st =>
    if alo < st.besti && blo < st.bestj &&
        (a.getD (st.besti - 1) ' ' == b.getD (st.bestj - 1) ' ') then
      extendBack a b alo blo f ⟨st.besti - 1, st.bestj - 1, st.bestsize + 1⟩
    else st

/-- Extend the best block forward over equal characters. -/
def extendFwd (a b : List Char) (ahi bhi : Nat) : Nat → FlmState → FlmState
  | 0, st => st
  | f + 1, st =>
    if st.besti + st.bestsize < ahi && st.bestj + st.bestsize < bhi &&
        (a.getD (st.besti + st.bestsize) ' ' == b.getD (st.bestj + st.bestsize) ' ') then
      extendFwd a b ahi bhi f ⟨st.besti, st.bestj, st.bestsize + 1⟩
    else st

def findLongestMatch (a b : List Char) (alo ahi blo bhi : Nat) : FlmState :=
  let st0 := flmDP a b alo ahi blo bhi
  let st1 := extendBack a b alo blo st0.besti st0
  extendFwd a b ahi bhi ahi st1

/-- Total size of the recursive matching blocks; the fuel
len a + len b + 1 dominates the recursion depth. -/
def mbSizes (a b : List Char) : Nat → Nat → Nat → Nat → Nat → Nat
  | 0, _, _, _, _ => 0
  | fuel + 1, alo, ahi, blo, bhi =>
    let st := findLongestMatch a b alo ahi blo bhi
    if st.bestsize = 0 then 0
    else
      (if alo < st.besti && blo < st.bestj then
        mbSizes a b fuel alo st.besti blo st.bestj
      else 0) +
      st.bestsize +
      (if st.besti + st.bestsize < ahi && st.bestj + st.bestsize < bhi then
        mbSizes a b fuel (st.besti + st.bestsize) ahi (st.bestj + st.bestsize) bhi
      else 0)

def totalMatched (a b : List Char) : Nat :=
  mbSizes a b (a.length + b.length + 1) 0 a.length 0 b.length

/-- SequenceMatcher.ratio as an exact rational. -/
def ratioQ (a b : List Char) : ℚ :=
  mkRat (2 * totalMatched a b) (a.length + b.length)

/-- `similarity`: 0 for an empty side, 1 for equal strings, else the
sequence-matcher ratio. -/
def similarityQ (a b : String) : ℚ :=
  if a = "" ∨ b = "" then 0
  else if a = b then 1
  else ratioQ a.data b.data

/-- Python round(x, 4): round half to even at four decimal places (exact
rationals standing in for floats). -/
def roundQ4 (q : ℚ) : ℚ :=
  let n : Int := q.num * 10000
  let d : Int := (q.den : Int)
  let fl : Int := n.fdiv d
  let r : Int := n.fmod d
  let scaled : Int :=
    if 2 * r < d then fl
    else if 2 * r > d then fl + 1
    else if fl % 2 = 0 then fl else fl + 1
  mkRat scaled 10000

/-! ## Summaries, ranking and the /check handler -/

/-- Maximal digit runs of a string (`parse_classes` splits on [^0-9]+ and
keeps the nonempty parts). -/
def digitRuns : List Char → List (List Char)
  | [] => []
  | c :: cs =>
    if c.isDigit then
      match cs, digitRuns cs with
      | d :: _, r :: rs => if d.isDigit then (c :: r) :: rs else [c] :: r :: rs
      | _, _ => [[c]]
    else digitRuns cs

/-- `parse_classes`. -/
def parseClasses (s : String) : List String :=
  if s = "" then [] else (digitRuns s.data).map (fun r => (⟨r⟩ : String))

structure MarkSummary where
  reg_no : String
  mark_text : String
  owner_name : String
  owner_type : String
  country : String
  status : String
  category : String
  mark_type : String
  filed : String
  registered : String
  expired : String
  renewal_due : String
  age_years : Option Int
  active : Bool
  class_codes : List String
  goods_services : String
  similarity : ℚ
deriving DecidableEq

/-- `summarize_mark`. -/
def summarizeMark (today : YMD) (termNorm : String) (row : Mark) : MarkSummary :=
  { reg_no := row.reg_no
    mark_text := row.mark_text
    owner_name := row.owner_name
    owner_type := row.owner_type
    country := row.country
    status := row.status
    category := row.category
    mark_type := row.mark_type
    filed := row.filed
    registered := row.registered
    expired := row.expired
    renewal_due := row.renewal_due
    age_years := if row.filed ≠ "" then yearsSince today row.filed else none
    active := isActive today row.status row.expired
    class_codes :=
      if row.class_codes ≠ "" then
        (splitOnChar ',' row.class_codes.data).map (fun r => (⟨r⟩ : String))
      else []
    goods_services := row.goods_services
    similarity := roundQ4 (similarityQ termNorm (normText row.mark_text)) }

structure PatentSummary where
  application_number : String
  publication_number : String
  applicant_name : String
  applicant_country : String
  ipc7 : String
  ipc8 : String
  status : String
  filing_date : String
  earliest_filing_date : String
  publication_a_date : String
  publication_b_date : String
  last_renewal_date : String
  date_not_in_force : String
  reason_not_in_force : String
  active : Bool
  age_years : Option Int
  similarity : ℚ
deriving DecidableEq

/-- `summarize_patent`. -/
def summarizePatent (today : YMD) (termNorm : String) (row : Patent) : PatentSummary :=
  { application_number := row.application_number
    publication_number := row.publication_number
    applicant_name := row.applicant_name
    applicant_country :=
      if row.applicant_country ≠ "" then row.applicant_country
      else row.applicant_country_code
    ipc7 := row.ipc7
    ipc8 := row.ipc8
    status := row.status
    filing_date := row.filing_date
    earliest_filing_date := row.earliest_filing_date
    publication_a_date := row.publication_a_date
    publication_b_date := row.publication_b_date
    last_renewal_date := row.last_renewal_date
    date_not_in_force := row.date_not_in_force
    reason_not_in_force := row.reason_not_in_force
    active := patentActive row.status row.date_not_in_force
    age_years := if row.filing_date ≠ "" then yearsSince today row.filing_date else none
    similarity :=
      roundQ4 (if row.applicant_name ≠ "" then
        similarityQ termNorm (normText row.applicant_name)
      else 0) }

/-- Strict order on the (active, similarity) sort key; False before
True. -/
def keyLt (k1 k2 : Bool × ℚ) : Prop :=
  (k1.1 = false ∧ k2.1 = true) ∨ (k1.1 = k2.1 ∧ k1.2 < k2.2)

instance (k1 k2 : Bool × ℚ) : Decidable (keyLt k1 k2) := by
  unfold keyLt
  infer_instance

/-- Stable descending insertion: the element lands after every element of
key ≥ its own, before the first strictly smaller one (the behaviour of
Python's stable sort with reverse=True). -/
def insertDesc {α : Type} (key : α → Bool × ℚ) (x : α) : List α → List α
  | [] => [x]
  | y :: ys =>
    if keyLt (key y) (key x) then x :: y :: ys else y :: insertDesc key x ys

/-- list.sort(key=(active, similarity), reverse=True). -/
def sortDesc {α : Type} (key : α → Bool × ℚ) (l : List α) : List α :=
  l.foldl (fun acc x => insertDesc key x acc) []

structure DB where
  marks : List Mark
  patents : List Patent

structure CheckRequest where
  trademark : String
  country : String
  classes : String
  include_patents : Bool

structure CheckResponse where
  trademark : String
  country : String
  classes : List String
  risk_level : String
  match_count : Nat
  patent_count : Nat
  similar_marks : List MarkSummary
  patents : List PatentSummary
deriving DecidableEq

/-- `country_available`: at least one mark row in the resolved set. -/
def countryAvailable (marks : List Mark) (country : String) : Bool :=
  marks.any (fun m => (resolveCountries country).contains m.country)

/-- Projection from a mark summary to the fields `score_risk` reads. -/
def toScored (m : MarkSummary) : ScoredRecord :=
  ⟨m.active, m.similarity, m.class_codes⟩

/-- The /check handler on an open index (download/bootstrap and JSON
transport excluded; the current UTC date passed explicitly). -/
def check (today : YMD) (db : DB) (req : CheckRequest) : Except String CheckResponse :=
  let term := pyStrip req.trademark
  let country := pyStrip req.country
  let classFilter := parseClasses req.classes
  if term = "" then .error "Missing trademark"
  else if country = "" then .error "Missing country"
  else if (pyStrip term).data.length < 3 then
    .error "Please enter at least 3 characters."
  else if !countryAvailable db.marks country then
    .error "No records found for this country in the current index."
  else
    let termNorm := normText term
    let rows := queryCandidates db.marks termNorm country 25
    let patentRows := if req.include_patents then queryPatents db.patents termNorm 25 else []
    let msSorted :=
      (sortDesc (fun m => (m.active, m.similarity))
        (rows.map (summarizeMark today termNorm))).take 50
    let psSorted :=
      (sortDesc (fun p => (p.active, p.similarity))
        (patentRows.map (summarizePatent today termNorm))).take 50
    .ok
      { trademark := term
        country := country
        classes := classFilter
        risk_level := scoreRisk (msSorted.map toScored) classFilter
        match_count := msSorted.length
        patent_count := psSorted.length
        similar_marks := msSorted
        patents := psSorted }

/-- The patents part of a successful /check response, as a function of
the index, the raw query text and the include-patents flag only. -/
def patentsPipeline (today : YMD) (db : DB) (trademark : String)
    (includePatents : Bool) : List PatentSummary :=
  let term := pyStrip trademark
  let termNorm := normText term
  let patentRows := if includePatents then queryPatents db.patents termNorm 25 else []
  (sortDesc (fun p => (p.active, p.similarity))
    (patentRows.map (summarizePatent today termNorm))).take 50

/-- Sample index and requests for the closed country-invariance
instance: one UK mark, one patent findable by application number. -/

def wPatentRows : List Patent :=
  (rowToPatent "patents.xlsx" patentHeaders ["acme123", "", "Acme", "", ""]).toList

def wDB : DB := { marks := [ukMark], patents := wPatentRows }

def wReq1 : CheckRequest :=
  { trademark := "Acme", country := "UK", classes := "", include_patents := true }

def wReq2 : CheckRequest :=
  { trademark := "Acme", country := "all", classes := "", include_patents := true }

/-! ## Theorems -/

theorem collapseSpaces_head? :
    ∀ (c : Char) (cs : List Char), (collapseSpaces (c :: cs)).head? = some c := by
  intro c cs
  induction cs generalizing c with
  | nil => rfl
  | cons d cs ih =>
    by_cases h : c = ' ' ∧ d = ' '
    · simpa [collapseSpaces, h.1, h.2] using ih ' '
    · have hb : (decide (c = ' ') && decide (d = ' ')) = false := by
        rcases not_and_or.mp h with h1 | h1 <;> simp [h1]
      simp [collapseSpaces, hb]

theorem noDblSp_collapseSpaces (l : List Char) : NoDblSp (collapseSpaces l) := by
  induction l with
  | nil => exact List.chain'_nil
  | cons c cs ih =>
    cases cs with
    | nil => simp [collapseSpaces, NoDblSp]
    | cons d cs' =>
      by_cases h : c = ' ' ∧ d = ' '
      · simpa [collapseSpaces, h.1, h.2] using ih
      · have hb : (decide (c = ' ') && decide (d = ' ')) = false := by
          rcases not_and_or.mp h with h1 | h1 <;> simp [h1]
        simp only [collapseSpaces, hb, Bool.false_eq_true, if_false]
        have hh := collapseSpaces_head? d cs'
        rcases he : collapseSpaces (d :: cs') with _ | ⟨x, xs⟩
        · exact List.chain'_singleton c
        · rw [he] at hh ih
          have hx : x = d := by simpa using hh
          refine List.chain'_cons.mpr ⟨?_, ih⟩
          rw [hx]; exact h

theorem collapseSpaces_eq_self {l : List Char} (h : NoDblSp l) :
    collapseSpaces l = l := by
  induction l with
  | nil => rfl
  | cons c cs ih =>
    cases cs with
    | nil => rfl
    | cons d cs' =>
      have h2 := List.chain'_cons.mp h
      have hb : (decide (c = ' ') && decide (d = ' ')) = false := by
        rcases not_and_or.mp h2.1 with h1 | h1 <;> simp [h1]
      simp only [collapseSpaces, hb, Bool.false_eq_true, if_false]
      rw [ih h2.2]

theorem stripSpaces_shrinks (l : List Char) : stripSpaces l <:+: l := by
  have h1 : l.dropWhile (· = ' ') <:+ l := List.dropWhile_suffix _
  have h2 : (l.dropWhile (· = ' ')).reverse.dropWhile (· = ' ') <:+
      (l.dropWhile (· = ' ')).reverse := List.dropWhile_suffix _
  have h3 : stripSpaces l <+: l.dropWhile (· = ' ') := by
    have := List.IsSuffix.reverse h2
    simpa [stripSpaces] using this
  obtain ⟨t, ht⟩ := h3
  obtain ⟨u, hu⟩ := h1
  exact ⟨u, t, by rw [List.append_assoc, ht, hu]⟩

theorem head?_dropWhileSp (l : List Char) :
    ∀ c, (l.dropWhile (· = ' ')).head? = some c → ¬(c = ' ') := by
  induction l with
  | nil => intro c h; simp at h
  | cons a as ih =>
    intro c h
    by_cases ha : a = ' '
    · rw [List.dropWhile_cons_of_pos (by simp [ha])] at h
      exact ih c h
    · rw [List.dropWhile_cons_of_neg (by simp [ha])] at h
      simp at h; rw [← h]; exact ha

theorem dropWhileSp_eq_self {l : List Char}
    (h : ∀ c, l.head? = some c → ¬(c = ' ')) : l.dropWhile (· = ' ') = l := by
  cases l with
  | nil => rfl
  | cons a as =>
    have := h a rfl
    rw [List.dropWhile_cons_of_neg (by simp [this])]

theorem head?_stripSpaces (l : List Char) :
    ∀ c, (stripSpaces l).head? = some c → ¬(c = ' ') := by
  intro c hc
  unfold stripSpaces at hc
  rcases he : (l.dropWhile (· = ' ')).reverse.dropWhile (· = ' ') with _ | ⟨x, xs⟩
  · rw [he] at hc; simp at hc
  · rw [he] at hc
    have hsuf : (x :: xs) <:+ (l.dropWhile (· = ' ')).reverse := by
      rw [← he]; exact List.dropWhile_suffix _
    have hpre : (x :: xs).reverse <+: l.dropWhile (· = ' ') := by
      have := List.IsSuffix.reverse hsuf
      simpa using this
    have hne : ((x :: xs).reverse) ≠ [] := by simp
    have hhead : ((x :: xs).reverse).head? = (l.dropWhile (· = ' ')).head? := by
      rcases hpre with ⟨t, ht⟩
      rw [← ht]
      rcases hr : (x :: xs).reverse with _ | ⟨y, ys⟩
      · exact absurd hr hne
      · simp
    rw [hc] at hhead
    exact head?_dropWhileSp l c hhead.symm

theorem stripSpaces_idem (l : List Char) :
    stripSpaces (stripSpaces l) = stripSpaces l := by
  have hhead := head?_stripSpaces l
  have hlast : ∀ c, ((stripSpaces l).reverse).head? = some c → ¬(c = ' ') := by
    intro c hc
    unfold stripSpaces at hc
    rw [List.reverse_reverse] at hc
    exact head?_dropWhileSp _ c hc
  show (((stripSpaces l).dropWhile (· = ' ')).reverse.dropWhile (· = ' ')).reverse =
    stripSpaces l
  rw [dropWhileSp_eq_self hhead, dropWhileSp_eq_self hlast, List.reverse_reverse]

theorem mem_collapseSpaces {c : Char} {l : List Char}
    (h : c ∈ collapseSpaces l) : c ∈ l := by
  induction l with
  | nil => simpa [collapseSpaces] using h
  | cons a as ih =>
    cases as with
    | nil => simpa [collapseSpaces] using h
    | cons d cs' =>
      by_cases hb : a = ' ' ∧ d = ' '
      · rw [collapseSpaces, if_pos (by simp [hb.1, hb.2])] at h
        exact List.mem_cons_of_mem a (ih h)
      · have hb2 : (decide (a = ' ') && decide (d = ' ')) = false := by
          rcases not_and_or.mp hb with h1 | h1 <;> simp [h1]
        rw [collapseSpaces, hb2] at h
        simp only [Bool.false_eq_true, if_false, List.mem_cons] at h
        rcases h with h | h
        · exact h ▸ List.mem_cons_self a _
        · exact List.mem_cons_of_mem a (ih h)

theorem mem_normTextL {c : Char} {l : List Char} (h : c ∈ normTextL l) :
    isAlnumLower c = true ∨ c = ' ' := by
  have h1 : c ∈ collapseSpaces (l.map normChar) :=
    (stripSpaces_shrinks (collapseSpaces (l.map normChar))).mem h
  have h2 : c ∈ l.map normChar := mem_collapseSpaces h1
  rcases List.mem_map.mp h2 with ⟨a, _, ha⟩
  subst ha
  unfold normChar
  by_cases hc : isAlnumLower a.toLower = true
  · left; simpa [hc]
  · right; simp [hc]

theorem toLower_fixed_of_alnum {c : Char} (h : isAlnumLower c = true) :
    c.toLower = c := by
  unfold isAlnumLower at h
  simp only [Bool.or_eq_true, Bool.and_eq_true, decide_eq_true_eq] at h
  have hn : ¬(65 ≤ c.toNat ∧ c.toNat ≤ 90) := by
    rcases h with ⟨h1, h2⟩ | ⟨h1, h2⟩
    · have : (97 : Nat) ≤ c.toNat := Char.le_def.mp h1
      omega
    · have : c.toNat ≤ 57 := Char.le_def.mp h2
      omega
  simp only [Char.toLower]
  rw [if_neg (by simpa [GE.ge] using hn)]

theorem normChar_fixed {c : Char} (h : isAlnumLower c = true ∨ c = ' ') :
    normChar c = c := by
  rcases h with h | h
  · unfold normChar
    rw [toLower_fixed_of_alnum h, if_pos h]
  · subst h; decide

theorem map_normChar_normTextL (l : List Char) :
    (normTextL l).map normChar = normTextL l := by
  have h : ∀ c ∈ normTextL l, normChar c = id c := fun c hc =>
    normChar_fixed (mem_normTextL hc)
  rw [List.map_congr_left h, List.map_id]

theorem noDblSp_of_within {l m : List Char} (hm : m <:+: l) (h : NoDblSp l) :
    NoDblSp m := by
  obtain ⟨s, t, hst⟩ := hm
  rw [← hst] at h
  unfold NoDblSp at h ⊢
  rw [List.append_assoc] at h
  exact (List.chain'_append.mp ((List.chain'_append.mp h).2.1)).1

theorem normTextL_idem (l : List Char) :
    normTextL (normTextL l) = normTextL l := by
  have h1 : normTextL (normTextL l) =
      stripSpaces (collapseSpaces ((normTextL l).map normChar)) := rfl
  rw [h1, map_normChar_normTextL]
  have hnd : NoDblSp (normTextL l) :=
    noDblSp_of_within (stripSpaces_shrinks _) (noDblSp_collapseSpaces (l.map normChar))
  rw [collapseSpaces_eq_self hnd]
  exact stripSpaces_idem (collapseSpaces (l.map normChar))

/-- C6: `normalize_text` is idempotent — normalizing twice equals
normalizing once — and it lower-cases, collapses every run of characters
outside [a-z0-9] to a single space, and trims; in particular
normalizing "Acme-Co., Ltd!!" gives "acme co ltd". -/
theorem c6_normText_idempotent :
    (∀ s : String, normText (normText s) = normText s) ∧
    normText "Acme-Co., Ltd!!" = "acme co ltd" := by
  refine ⟨fun s => ?_, by decide⟩
  exact congrArg String.mk (normTextL_idem s.data)

/-- C3 counterexample: with today = 2026-10-12, the mark
(status "Registered", expired "2020-1-2") is judged inactive by the code,
yet "2020-1-2" is not strict zero-padded YYYY-MM-DD and the status is not
in the dead set, so the claimed iff-condition calls it active. -/
theorem c3_counterexample :
    isActive ⟨2026, 10, 12⟩ "Registered" "2020-1-2" = false ∧
    parseYMDStrict "2020-1-2".data = none ∧
    deadStatuses.contains (pyLower (pyStrip "Registered")) = false := by
  decide

/-- C3 (amended): a Mark is inactive iff its trimmed lower-cased status is
in {dead, expired, withdrawn, revoked, cancelled, removed}, or its expiry
value is nonempty, parses under the %Y-%m-%d format (four-digit year,
month/day with optional zero padding, calendar-valid), and is strictly
before the current UTC date; and with status "Registered", expiry equal to
yesterday is inactive while today or tomorrow stays active. -/
theorem c3_isActive_characterization :
    (∀ (today : YMD) (status expired : String),
      isActive today status expired = false ↔
        (deadStatuses.contains (pyLower (pyStrip status)) = true ∨
          (expired ≠ "" ∧
            ∃ e, parseYMD expired.data = some e ∧ ymdLt e today = true))) ∧
    isActive ⟨2026, 10, 12⟩ "Registered" "2026-10-11" = false ∧
    isActive ⟨2026, 10, 12⟩ "Registered" "2026-10-12" = true ∧
    isActive ⟨2026, 10, 12⟩ "Registered" "2026-10-13" = true := by
  refine ⟨fun today status expired => ?_, by decide, by decide, by decide⟩
  unfold isActive
  by_cases hdead : deadStatuses.contains (pyLower (pyStrip status)) = true
  · rw [if_pos hdead]
    exact iff_of_true rfl (Or.inl hdead)
  · rw [if_neg hdead]
    by_cases hexp : expired = ""
    · rw [if_pos hexp]
      refine iff_of_false (by simp) ?_
      rintro (h | ⟨h, _⟩)
      · exact hdead h
      · exact h hexp
    · rw [if_neg hexp]
      cases hp : parseYMD expired.data with
      | none =>
        refine iff_of_false (by simp) ?_
        rintro (h | ⟨-, e, he, -⟩)
        · exact hdead h
        · simp at he
      | some e =>
        cases hlt : ymdLt e today with
        | true =>
          exact iff_of_true (by simp [hlt]) (Or.inr ⟨hexp, e, rfl, hlt⟩)
        | false =>
          refine iff_of_false (by simp [hlt]) ?_
          rintro (h | ⟨-, e2, he, hl2⟩)
          · exact hdead h
          · rw [← Option.some_inj.mp he] at hl2
            rw [hlt] at hl2
            exact Bool.false_ne_true hl2

/-! ### Helper lemmas for digit strings -/

theorem takeWhile_eq_self_of_all {α : Type} {p : α → Bool} :
    ∀ {l : List α}, (∀ c ∈ l, p c = true) → l.takeWhile p = l := by
  intro l h
  induction l with
  | nil => rfl
  | cons a as ih =>
    rw [List.takeWhile_cons_of_pos (h a (List.mem_cons_self a as))]
    rw [ih (fun c hc => h c (List.mem_cons_of_mem a hc))]

theorem dropWhile_eq_self_of_none {α : Type} {p : α → Bool} :
    ∀ {l : List α}, (∀ c ∈ l, p c = false) → l.dropWhile p = l := by
  intro l h
  cases l with
  | nil => rfl
  | cons a as =>
    rw [List.dropWhile_cons_of_neg]
    rw [h a (List.mem_cons_self a as)]
    exact Bool.false_ne_true

theorem isPyWS_of_isDigit {c : Char} (h : c.isDigit = true) : isPyWS c = false := by
  unfold isPyWS
  have g : ∀ x : Char, x.isDigit = false → c ≠ x := by
    intro x hx he
    rw [he, hx] at h
    exact Bool.false_ne_true h
  simp [g ' ' (by decide), g '\t' (by decide), g '\n' (by decide),
    g '\x0d' (by decide), g '\x0b' (by decide), g '\x0c' (by decide)]

theorem stripWS_eq_self_of_digits {l : List Char}
    (h : ∀ c ∈ l, c.isDigit = true) : stripWS l = l := by
  unfold stripWS
  have h1 : l.dropWhile isPyWS = l :=
    dropWhile_eq_self_of_none (fun c hc => isPyWS_of_isDigit (h c hc))
  rw [h1]
  have h2 : l.reverse.dropWhile isPyWS = l.reverse :=
    dropWhile_eq_self_of_none
      (fun c hc => isPyWS_of_isDigit (h c (List.mem_reverse.mp hc)))
  rw [h2, List.reverse_reverse]

theorem nullValues_contains_digits {c : Char} {cs : List Char}
    (hc : c.isDigit = true) : nullValues.contains ⟨c :: cs⟩ = false := by
  have g : ∀ x : Char, x.isDigit = false → c ≠ x := by
    intro x hx he
    rw [he, hx] at hc
    exact Bool.false_ne_true hc
  have hmem : (⟨c :: cs⟩ : String) ∉ nullValues := by
    intro hmem
    simp only [nullValues, List.mem_cons, List.not_mem_nil, or_false] at hmem
    rcases hmem with h | h | h | h | h <;>
      (rw [show ∀ t : List Char, (⟨c :: cs⟩ : String) = ⟨t⟩ ↔ c :: cs = t from
          fun t => Iff.intro (fun hh => by injection hh) (fun hh => by rw [hh])] at h)
    · exact List.cons_ne_nil c cs h
    · injection h with h1 h2; exact g 'N' (by decide) h1
    · injection h with h1 h2; exact g 'n' (by decide) h1
    · injection h with h1 h2; exact g 'N' (by decide) h1
    · injection h with h1 h2; exact g 'n' (by decide) h1
  exact Bool.eq_false_iff.mpr (fun ht => hmem (List.elem_iff.mp ht))

theorem splitSign_digits {c : Char} {cs : List Char} (hc : c.isDigit = true) :
    splitSign (c :: cs) = (1, c :: cs) := by
  have g : ∀ x : Char, x.isDigit = false → c ≠ x := by
    intro x hx he
    rw [he, hx] at hc
    exact Bool.false_ne_true hc
  show (if c = '+' then ((1 : Int), cs)
    else if c = '-' then (-1, cs) else (1, c :: cs)) = (1, c :: cs)
  rw [if_neg (g '+' (by decide)), if_neg (g '-' (by decide))]

theorem toLower_fixed_of_isDigit {c : Char} (h : c.isDigit = true) :
    c.toLower = c := by
  simp only [Char.isDigit, decide_eq_true_eq, Bool.and_eq_true, ge_iff_le] at h
  have h1 : (48 : UInt32).toNat ≤ c.val.toNat := h.1
  have h2 : c.val.toNat ≤ (57 : UInt32).toNat := h.2
  have hn : ¬(65 ≤ c.toNat ∧ c.toNat ≤ 90) := by
    have e1 : (48 : UInt32).toNat = 48 := rfl
    have e2 : (57 : UInt32).toNat = 57 := rfl
    have e3 : c.toNat = c.val.toNat := rfl
    omega
  simp only [Char.toLower]
  rw [if_neg (by simpa [GE.ge] using hn)]

theorem map_toLower_digits {l : List Char} (hd : ∀ c ∈ l, c.isDigit = true) :
    l.map Char.toLower = l := by
  have h : ∀ c ∈ l, Char.toLower c = id c := fun c hc =>
    toLower_fixed_of_isDigit (hd c hc)
  rw [List.map_congr_left h, List.map_id]

theorem digits_ne_word {c : Char} {cs : List Char} (hc : c.isDigit = true)
    {d : Char} (hdd : d.isDigit = false) :
    ∀ ds : List Char, c :: cs ≠ d :: ds := by
  intro ds he
  injection he with h1 h2
  rw [h1, hdd] at hc
  exact Bool.false_ne_true hc

theorem dpRest_digits {r : List Char} (hd : ∀ c ∈ r, c.isDigit = true) :
    dpRest r = true := by
  induction r with
  | nil => rfl
  | cons c r ih =>
    have hc := hd c (List.mem_cons_self c r)
    have hne : c ≠ '_' := fun he => by
      rw [he] at hc
      exact absurd hc (by decide)
    unfold dpRest
    rw [if_neg hne, hc, Bool.true_and]
    exact ih (fun x hx => hd x (List.mem_cons_of_mem c hx))

theorem validDigitPart_digits {c : Char} {cs : List Char}
    (hd : ∀ x ∈ c :: cs, x.isDigit = true) :
    validDigitPart (c :: cs) = true := by
  show (c.isDigit && dpRest cs) = true
  rw [hd c (List.mem_cons_self c cs), Bool.true_and]
  exact dpRest_digits (fun x hx => hd x (List.mem_cons_of_mem c hx))

theorem filter_underscore_digits {l : List Char} (hd : ∀ c ∈ l, c.isDigit = true) :
    l.filter (fun c => !decide (c = '_')) = l := by
  rw [List.filter_eq_self]
  intro a ha
  have hc := hd a ha
  have hne : a ≠ '_' := fun he => by
    rw [he] at hc
    exact absurd hc (by decide)
  simp [hne]

theorem parseFloatPy_digits {l : List Char} (hne : l ≠ [])
    (hd : ∀ c ∈ l, c.isDigit = true) :
    parseFloatPy l = some (.finite (digitsToNat l : Int) 1) := by
  cases l with
  | nil => exact absurd rfl hne
  | cons c cs =>
    have hc := hd c (List.mem_cons_self c cs)
    have hdu : ∀ x ∈ c :: cs, isDigitU x = true := by
      intro x hx
      simp [isDigitU, hd x hx]
    simp [parseFloatPy, splitSign_digits hc, map_toLower_digits hd,
      digits_ne_word hc (show Char.isDigit 'i' = false by decide),
      digits_ne_word hc (show Char.isDigit 'n' = false by decide),
      takeWhile_eq_self_of_all hdu, validDigitPart_digits hd,
      filter_underscore_digits hd, List.drop_length, parseExpTail]

/-- C7 counterexample: a non-numeric, non-sentinel input is passed
through unchanged (and does not raise), not mapped to the empty
string. -/
theorem c7_counterexample :
    excelDateToIso "abc" = some "abc" ∧ excelDateToIso "abc" ≠ some "" := by
  refine ⟨rfl, by decide⟩

set_option maxRecDepth 8000 in
/-- C7 (amended): the converter maps a positive integer serial up to
2958465 (date 9999-12-31) to the ISO date `n` days past 1899-12-30, while
a larger positive serial — like positive infinity — hits the OverflowError
that `except ValueError` does not catch, aborting the conversion (none);
empty/null-sentinel inputs, non-positive numerics and negative infinity
map to the empty string; NaN and any other input float() rejects are
returned as the stripped self; e.g. serial 65 gives 1900-03-05 and the
underscore literal 1_0 gives 1900-01-09. -/
theorem c7_excelDateToIso :
    (∀ l : List Char, l ≠ [] → (∀ c ∈ l, c.isDigit = true) →
      1 ≤ digitsToNat l → digitsToNat l ≤ maxExcelSerial →
      excelDateToIso ⟨l⟩ = some (isoFormat (addDays excelEpoch (digitsToNat l)))) ∧
    (∀ l : List Char, l ≠ [] → (∀ c ∈ l, c.isDigit = true) →
      maxExcelSerial < digitsToNat l →
      excelDateToIso ⟨l⟩ = none) ∧
    (∀ s : String, stripWS s.data = [] ∨ (⟨stripWS s.data⟩ : String) ∈ nullValues →
      excelDateToIso s = some "") ∧
    (∀ s : String, ∀ n : Int, ∀ d : Nat,
      parseFloatPy (stripWS s.data) = some (.finite n d) → n ≤ 0 →
      (⟨stripWS s.data⟩ : String) ∉ nullValues → stripWS s.data ≠ [] →
      excelDateToIso s = some "") ∧
    (∀ s : String, parseFloatPy (stripWS s.data) = none →
      (⟨stripWS s.data⟩ : String) ∉ nullValues → stripWS s.data ≠ [] →
      excelDateToIso s = some (⟨stripWS s.data⟩ : String)) ∧
    excelDateToIso "-inf" = some "" ∧
    excelDateToIso "inf" = none ∧
    excelDateToIso "nan" = some "nan" ∧
    excelDateToIso "1_0" = some "1900-01-09" ∧
    excelDateToIso "2958466" = none ∧
    excelDateToIso "65" = some "1900-03-05" := by
  have hcond : ∀ t : List Char, t ≠ [] → (⟨t⟩ : String) ∉ nullValues →
      (t.isEmpty || nullValues.contains ⟨t⟩) = false := by
    intro t h1 h2
    cases ht : t.isEmpty with
    | true => exact absurd (List.isEmpty_iff.mp ht) h1
    | false =>
      rw [Bool.false_or]
      exact Bool.eq_false_iff.mpr (fun hx => h2 (List.elem_iff.mp hx))
  refine ⟨?_, ?_, ?_, ?_, ?_, rfl, rfl, rfl, rfl, rfl, by decide⟩
  · intro l hne hd h1 h2
    show excelAfterStrip (stripWS l) = _
    rw [stripWS_eq_self_of_digits hd]
    cases l with
    | nil => exact absurd rfl hne
    | cons c cs =>
      unfold excelAfterStrip
      rw [nullValues_contains_digits (hd c (List.mem_cons_self c cs))]
      rw [parseFloatPy_digits hne hd]
      simp only [List.isEmpty_cons, Bool.or_false, Bool.false_eq_true, if_false]
      rw [if_neg (by omega)]
      simp only [Nat.cast_one, Int.tdiv_one, Int.toNat_natCast]
      rw [if_pos h2]
  · intro l hne hd h2
    show excelAfterStrip (stripWS l) = none
    rw [stripWS_eq_self_of_digits hd]
    cases l with
    | nil => exact absurd rfl hne
    | cons c cs =>
      unfold excelAfterStrip
      rw [nullValues_contains_digits (hd c (List.mem_cons_self c cs))]
      rw [parseFloatPy_digits hne hd]
      simp only [List.isEmpty_cons, Bool.or_false, Bool.false_eq_true, if_false]
      rw [if_neg (by omega)]
      simp only [Nat.cast_one, Int.tdiv_one, Int.toNat_natCast]
      rw [if_neg (by omega)]
  · intro s h
    show excelAfterStrip (stripWS s.data) = some ""
    unfold excelAfterStrip
    rcases h with h | h
    · rw [if_pos (by simp [h])]
    · have hc : nullValues.contains ⟨stripWS s.data⟩ = true := List.elem_iff.mpr h
      rw [if_pos (by rw [hc, Bool.or_true])]
  · intro s n d hv hn hnn hne
    show excelAfterStrip (stripWS s.data) = some ""
    unfold excelAfterStrip
    rw [hcond (stripWS s.data) hne hnn]
    simp only [Bool.false_eq_true, if_false]
    rw [hv]
    exact if_pos hn
  · intro s hv hnn hne
    show excelAfterStrip (stripWS s.data) = _
    unfold excelAfterStrip
    rw [hcond (stripWS s.data) hne hnn]
    simp only [Bool.false_eq_true, if_false]
    rw [hv]

/-- Closed instance of the amended serial-date theorem at serial 2. -/
theorem c7_excelDateToIso_witness :
    (['2'] ≠ ([] : List Char)) ∧ excelDateToIso "2" = some "1900-01-01" :=
  ⟨by decide, by
    have h := c7_excelDateToIso.1 ['2'] (by decide) (by decide) (by decide) (by decide)
    rw [show ((⟨['2']⟩ : String)) = "2" from rfl] at h
    rw [h]
    decide⟩

/-- C8 counterexample: the lower-cased name "boltdrive" contains the bare
token "ltd", yet the code classifies it as individual_or_other because
every suffix token in the source carries a leading space. -/
theorem c8_counterexample :
    inferOwnerType "Boltdrive" = "individual_or_other" ∧
    strContains (pyLower "Boltdrive") "ltd" = true := by decide

/-- C8 (amended): empty names map to "unknown"; a nonempty name maps to
"company" exactly when its lower-cased form contains one of the
space-prefixed suffix tokens " ltd", " limited", " llc", " inc", " corp",
" gmbh", " plc", " llp" or one of the connectors " and ", " & "; every
other nonempty name maps to "individual_or_other". -/
theorem c8_inferOwnerType :
    (∀ name : String,
      inferOwnerType name =
        if name = "" then "unknown"
        else if (companyTokens ++ [" and ", " & "]).any
            (fun t => strContains (pyLower name) t) then "company"
        else "individual_or_other") ∧
    inferOwnerType "" = "unknown" ∧
    inferOwnerType "Acme Robotics Ltd" = "company" ∧
    inferOwnerType "Jane Doe" = "individual_or_other" := by
  refine ⟨fun name => ?_, by decide, by decide, by decide⟩
  unfold inferOwnerType
  by_cases h0 : name = ""
  · rw [if_pos h0, if_pos h0]
  · rw [if_neg h0, if_neg h0]
    simp only [List.any_append, List.any_cons, List.any_nil, Bool.or_false]
    cases h1 : companyTokens.any (fun t => strContains (pyLower name) t) with
    | true => simp
    | false =>
      simp only [Bool.false_or]
      cases h2 : strContains (pyLower name) " and " with
      | true => simp
      | false =>
        cases h3 : strContains (pyLower name) " & " with
        | true => simp
        | false => simp

/-- C1: mark retrieval is exactly two-tiered with a cap of 25: a non-empty
exact tier is returned immediately (the prefix tier is never consulted);
with an empty exact tier a query shorter than 4 characters returns the
empty list; otherwise the result is exactly the capped prefix tier (and so
the empty list when both tiers are empty, with no broader scan). -/
theorem c1_queryCandidates_two_tiers :
    ∀ (db : List Mark) (termNorm country : String),
      (exactTier db termNorm (resolveCountries country) 25 ≠ [] →
        queryCandidates db termNorm country 25 =
          exactTier db termNorm (resolveCountries country) 25) ∧
      (exactTier db termNorm (resolveCountries country) 25 = [] →
        termNorm.data.length < 4 →
        queryCandidates db termNorm country 25 = []) ∧
      (exactTier db termNorm (resolveCountries country) 25 = [] →
        4 ≤ termNorm.data.length →
        queryCandidates db termNorm country 25 =
          likeTier db termNorm (resolveCountries country) 25) ∧
      (queryCandidates db termNorm country 25).length ≤ 25 := by
  intro db termNorm country
  have hq : queryCandidates db termNorm country 25 =
      (if (exactTier db termNorm (resolveCountries country) 25).isEmpty then
        if termNorm.data.length < 4 then []
        else
          if (likeTier db termNorm (resolveCountries country) 25).isEmpty then []
          else likeTier db termNorm (resolveCountries country) 25
      else exactTier db termNorm (resolveCountries country) 25) := rfl
  refine ⟨?_, ?_, ?_, ?_⟩
  · intro hne
    rw [hq, if_neg (by simpa [List.isEmpty_iff] using hne)]
  · intro hemp hlen
    rw [hq, if_pos (by simpa [List.isEmpty_iff] using hemp), if_pos hlen]
  · intro hemp hlen
    rw [hq, if_pos (by simpa [List.isEmpty_iff] using hemp),
      if_neg (by omega)]
    cases hl : (likeTier db termNorm (resolveCountries country) 25).isEmpty with
    | true => rw [if_pos rfl, List.isEmpty_iff.mp hl]
    | false => rw [if_neg (by simp)]
  · rw [hq]
    by_cases h1 : (exactTier db termNorm (resolveCountries country) 25).isEmpty
    · rw [if_pos h1]
      by_cases h2 : termNorm.data.length < 4
      · rw [if_pos h2]; exact Nat.zero_le 25
      · rw [if_neg h2]
        by_cases h3 : (likeTier db termNorm (resolveCountries country) 25).isEmpty
        · rw [if_pos h3]; exact Nat.zero_le 25
        · rw [if_neg h3]; exact List.length_take_le 25 _
    · rw [if_neg h1]; exact List.length_take_le 25 _

/-- Closed instance of the two-tier theorem: with an exact match present
the engine returns exactly the exact tier (not the prefix tier, which
would also contain the second row). -/
theorem c1_queryCandidates_witness :
    exactTier [ukMark, ukMark2] "acme" (resolveCountries "UK") 25 ≠ [] ∧
    queryCandidates [ukMark, ukMark2] "acme" "UK" 25 =
      exactTier [ukMark, ukMark2] "acme" (resolveCountries "UK") 25 :=
  ⟨by decide, (c1_queryCandidates_two_tiers [ukMark, ukMark2] "acme" "UK").1 (by decide)⟩

theorem riskCounts_step (classFilter : List String) (m : ScoredRecord) (p : Nat × Nat) :
    (if !classFilter.isEmpty && !classOverlap classFilter m.class_codes then p
     else if m.active && decide (mkRat 92 100 ≤ m.similarity) then (p.1 + 1, p.2)
     else if m.active && decide (mkRat 85 100 ≤ m.similarity) then (p.1, p.2 + 1)
     else p) =
      (p.1 + (if strongRecord classFilter m then 1 else 0),
       p.2 + (if mediumRecord classFilter m then 1 else 0)) := by
  have hskip : (!classFilter.isEmpty && !classOverlap classFilter m.class_codes) =
      !(passesClassFilter classFilter m) := by
    simp [passesClassFilter]
  rw [hskip]
  cases hp : passesClassFilter classFilter m with
  | false => simp [strongRecord, mediumRecord, hp]
  | true =>
    simp only [hp, Bool.not_true, Bool.false_eq_true, if_false]
    cases ha : m.active with
    | false => simp [strongRecord, mediumRecord, hp, ha]
    | true =>
      cases h92 : decide (mkRat 92 100 ≤ m.similarity) with
      | true =>
        have hlt : decide (m.similarity < mkRat 92 100) = false := by
          simp only [decide_eq_true_eq] at h92
          simp [not_lt.mpr h92]
        simp [strongRecord, mediumRecord, hp, ha, h92, hlt]
      | false =>
        cases h85 : decide (mkRat 85 100 ≤ m.similarity) with
        | true =>
          have hlt : decide (m.similarity < mkRat 92 100) = true := by
            simp only [decide_eq_false_iff_not] at h92
            simp [not_le.mp h92]
          simp [strongRecord, mediumRecord, hp, ha, h92, h85, hlt]
        | false => simp [strongRecord, mediumRecord, hp, ha, h92, h85]

theorem riskCounts_eq_countP (classFilter : List String) :
    ∀ (ms : List ScoredRecord) (p : Nat × Nat),
      ms.foldl
        (fun p m =>
          if !classFilter.isEmpty && !classOverlap classFilter m.class_codes then p
          else if m.active && decide (mkRat 92 100 ≤ m.similarity) then (p.1 + 1, p.2)
          else if m.active && decide (mkRat 85 100 ≤ m.similarity) then (p.1, p.2 + 1)
          else p) p =
        (p.1 + ms.countP (strongRecord classFilter),
         p.2 + ms.countP (mediumRecord classFilter)) := by
  intro ms
  induction ms with
  | nil => intro p; simp
  | cons m ms ih =>
    intro p
    rw [List.foldl_cons, riskCounts_step, ih]
    rw [List.countP_cons, List.countP_cons]
    simp only [Prod.mk.injEq]
    constructor <;> omega

/-- C2: `score_risk` is "high" iff some record passing the class-overlap
filter is active with similarity ≥ 0.92; otherwise "medium" iff some such
record is active with similarity in [0.85, 0.92); otherwise "low".  The
strong check precedes the medium check, no record satisfies both tier
predicates, and the 0.93/0.86 two-record example classifies as "high". -/
theorem c2_scoreRisk_tiers :
    (∀ (ms : List ScoredRecord) (classFilter : List String),
      scoreRisk ms classFilter =
        (if ms.any (strongRecord classFilter) then "high"
         else if ms.any (mediumRecord classFilter) then "medium"
         else "low")) ∧
    (∀ (classFilter : List String) (m : ScoredRecord),
      ¬(strongRecord classFilter m = true ∧ mediumRecord classFilter m = true)) ∧
    scoreRisk [⟨true, mkRat 93 100, []⟩, ⟨true, mkRat 86 100, []⟩] [] = "high" := by
  refine ⟨fun ms classFilter => ?_, fun classFilter m => ?_, by decide⟩
  · have h := riskCounts_eq_countP classFilter ms (0, 0)
    unfold scoreRisk riskCounts
    rw [h]
    show (if 0 < (0 : Nat) + ms.countP (strongRecord classFilter) then "high"
      else if 0 < (0 : Nat) + ms.countP (mediumRecord classFilter) then "medium"
      else "low") = _
    simp only [Nat.zero_add]
    have hsi : (0 < ms.countP (strongRecord classFilter)) ↔
        ms.any (strongRecord classFilter) = true := by
      rw [List.countP_pos_iff, List.any_eq_true]
    have hmi : (0 < ms.countP (mediumRecord classFilter)) ↔
        ms.any (mediumRecord classFilter) = true := by
      rw [List.countP_pos_iff, List.any_eq_true]
    by_cases h1 : 0 < ms.countP (strongRecord classFilter)
    · rw [if_pos h1, if_pos (hsi.mp h1)]
    · rw [if_neg h1, if_neg (fun hh => h1 (hsi.mpr hh))]
      by_cases h2 : 0 < ms.countP (mediumRecord classFilter)
      · rw [if_pos h2, if_pos (hmi.mp h2)]
      · rw [if_neg h2, if_neg (fun hh => h2 (hmi.mpr hh))]
  · rintro ⟨hs, hm⟩
    unfold strongRecord at hs
    unfold mediumRecord at hm
    simp only [Bool.and_eq_true, decide_eq_true_eq] at hs hm
    exact absurd hs.2 (not_le.mpr hm.2)

theorem insertMarks_filter (k : String) :
    ∀ (records : List Mark) (db : List Mark),
      (insertMarks db records).filter (fun m => m.reg_no == k) =
        db.filter (fun m => m.reg_no == k) ++
          (if regNoExists db k = true then []
           else (records.find? (fun m => m.reg_no == k)).toList) := by
  intro records
  induction records with
  | nil =>
    intro db
    unfold insertMarks
    rw [List.foldl_nil]
    cases h : regNoExists db k <;> simp
  | cons r rs ih =>
    intro db
    have hstep : insertMarks db (r :: rs) = insertMarks (insertOrIgnore db r) rs := rfl
    rw [hstep, ih (insertOrIgnore db r)]
    by_cases hdup : regNoExists db r.reg_no = true
    · rw [show insertOrIgnore db r = db from by unfold insertOrIgnore; rw [if_pos hdup]]
      by_cases hk : regNoExists db k = true
      · rw [if_pos hk, if_pos hk]
      · rw [if_neg hk, if_neg hk]
        have hr : (r.reg_no == k) = false := by
          cases hr2 : r.reg_no == k with
          | false => rfl
          | true =>
            have hrk : r.reg_no = k := by simpa using hr2
            rw [hrk] at hdup
            exact absurd hdup hk
        simp [List.find?_cons, hr]
    · rw [show insertOrIgnore db r = db ++ [r] from by
        unfold insertOrIgnore
        rw [if_neg hdup]]
      rw [List.filter_append]
      by_cases hr : (r.reg_no == k) = true
      · have hrk : r.reg_no = k := by simpa using hr
        have hkf : regNoExists db k = false := by
          cases hbb : regNoExists db r.reg_no with
          | true => exact absurd hbb hdup
          | false => rw [← hrk]; exact hbb
        have hex : regNoExists (db ++ [r]) k = true := by
          unfold regNoExists
          rw [List.any_append]
          simp [hr]
        rw [hex, if_pos rfl, hkf]
        simp [List.filter_cons, List.find?_cons, hr]
      · have hrf : (r.reg_no == k) = false := Bool.eq_false_iff.mpr hr
        have hex : regNoExists (db ++ [r]) k = regNoExists db k := by
          unfold regNoExists
          rw [List.any_append]
          simp [hrf]
        rw [hex]
        cases hk : regNoExists db k with
        | true => simp [List.filter_cons, List.find?_cons, hrf]
        | false => simp [List.filter_cons, List.find?_cons, hrf]

/-- C4: ingestion is deduplicating and idempotent per natural key: after
ingesting any record sequence, the rows carrying a given reg_no are
exactly the first-ingested record with that key (or none), so duplicates
are silently dropped, never updated, and the fold never fails. -/
theorem c4_dedup_first_wins :
    ∀ (records : List Mark) (k : String),
      (insertMarks [] records).filter (fun m => m.reg_no == k) =
        (records.find? (fun m => m.reg_no == k)).toList := by
  intro records k
  rw [insertMarks_filter k records []]
  simp [regNoExists]

/-- C5 counterexample: a file failing every encoding attempt aborts the
whole ingestion run (the claim says the batch continues); the same good
file ingests fine when the bad file is absent, so its records are lost. -/
theorem c5_counterexample :
    ingestAll [] [badFile, goodFile] =
      Except.error "Unsupported or invalid trademark text file: bad.txt" ∧
    (ingestAll [] [goodFile]).isOk = true := by
  refine ⟨rfl, rfl⟩

/-- C5 (amended): when every encoding attempt fails (decode error, empty
file, or missing mandatory header columns under all four encodings),
`read_rows` raises the descriptive ValueError naming the file — but the
error is fatal to the batch: `main` has no per-file handler, so the run
aborts at that file and the remaining files are never ingested. -/
theorem c5_encoding_failure_fatal :
    ∀ (f : TxtFile), (∀ e ∈ encChain, tryEncoding f e = none) →
      readRows f =
        Except.error ("Unsupported or invalid trademark text file: " ++ f.path) ∧
      ∀ (db : List Mark) (post : List TxtFile),
        ingestAll db (f :: post) =
          Except.error ("Unsupported or invalid trademark text file: " ++ f.path) := by
  intro f hfail
  have hgo : ∀ es : List Enc, (∀ e ∈ es, tryEncoding f e = none) →
      readRowsGo f es =
        Except.error ("Unsupported or invalid trademark text file: " ++ f.path) := by
    intro es
    induction es with
    | nil => intro _; rfl
    | cons e es ih =>
      intro h
      unfold readRowsGo
      rw [h e (List.mem_cons_self e es)]
      exact ih (fun x hx => h x (List.mem_cons_of_mem e hx))
  have hrr : readRows f =
      Except.error ("Unsupported or invalid trademark text file: " ++ f.path) :=
    hgo encChain hfail
  refine ⟨hrr, fun db post => ?_⟩
  unfold ingestAll ingestFile
  rw [hrr]

/-- Closed instance of the fatal-encoding-failure theorem at the sample
bad file followed by a good file. -/
theorem c5_encoding_failure_fatal_witness :
    (∀ e ∈ encChain, tryEncoding badFile e = none) ∧
    ingestAll [] [badFile, goodFile] =
      Except.error ("Unsupported or invalid trademark text file: " ++ badFile.path) :=
  ⟨by decide, (c5_encoding_failure_fatal badFile (by decide)).2 [] [goodFile]⟩

/-- C9: the end-to-end patent scenario fails on the code.  The applicant
is stored verbatim as "Acme Robotics Ltd" and is active, the normalized
query is "acme robotic" (which IS a prefix of the normalized applicant),
yet `query_patents` returns no rows at all, because the case-sensitive
LIKE prefix 'acme robotic%' cannot match the raw mixed-case applicant
column — so no result with similarity > 0.85 is ever returned. -/
theorem c9_patent_retrieval_returns_nothing :
    (acmePatents.map Patent.applicant_name) =
      ["Acme Robotics Ltd", "Acme Robotics Ltd"] ∧
    (acmePatents.map fun p => patentActive p.status p.date_not_in_force) =
      [true, true] ∧
    normText "acme robotic" = "acme robotic" ∧
    isPrefixL (normText "acme robotic").data
      (normText "Acme Robotics Ltd").data = true ∧
    queryPatents acmePatents (normText "acme robotic") 25 = [] ∧
    check ⟨2026, 10, 12⟩ { marks := [], patents := acmePatents }
        { trademark := "acme robotic", country := "US", classes := "",
          include_patents := true } =
      Except.error "No records found for this country in the current index." ∧
    (check ⟨2026, 10, 12⟩ { marks := [usMark], patents := acmePatents }
        { trademark := "acme robotic", country := "US", classes := "",
          include_patents := true }).toOption.map CheckResponse.patents =
      some [] := by
  refine ⟨rfl, rfl, rfl, rfl, rfl, rfl, rfl⟩

theorem check_ok_patents (today : YMD) (db : DB) (req : CheckRequest)
    (r : CheckResponse) (h : check today db req = Except.ok r) :
    r.patents = patentsPipeline today db req.trademark req.include_patents ∧
    r.patent_count = (patentsPipeline today db req.trademark req.include_patents).length := by
  unfold check at h
  simp only at h
  by_cases g1 : pyStrip req.trademark = ""
  · rw [if_pos g1] at h
    exact absurd h (by simp)
  · rw [if_neg g1] at h
    by_cases g2 : pyStrip req.country = ""
    · rw [if_pos g2] at h
      exact absurd h (by simp)
    · rw [if_neg g2] at h
      by_cases g3 : (pyStrip (pyStrip req.trademark)).data.length < 3
      · rw [if_pos g3] at h
        exact absurd h (by simp)
      · rw [if_neg g3] at h
        by_cases g4 : (!countryAvailable db.marks (pyStrip req.country)) = true
        · rw [if_pos g4] at h
          exact absurd h (by simp)
        · rw [if_neg g4] at h
          rw [Except.ok.injEq] at h
          rw [← h]
          exact ⟨rfl, rfl⟩

/-- C10: patent retrieval is independent of the country selector: two
successful /check requests over the same index that differ only in their
country value return identical patent lists and counts, because
`query_patents` carries no country condition (only the mark tiers are
filtered by the resolved country set). -/
theorem c10_patents_country_invariant :
    ∀ (today : YMD) (db : DB) (req1 req2 : CheckRequest)
      (r1 r2 : CheckResponse),
      req1.trademark = req2.trademark →
      req1.include_patents = req2.include_patents →
      check today db req1 = Except.ok r1 →
      check today db req2 = Except.ok r2 →
      r1.patents = r2.patents ∧ r1.patent_count = r2.patent_count := by
  intro today db req1 req2 r1 r2 ht hip h1 h2
  have hp1 := check_ok_patents today db req1 r1 h1
  have hp2 := check_ok_patents today db req2 r2 h2
  constructor
  · rw [hp1.1, hp2.1, ht, hip]
  · rw [hp1.2, hp2.2, ht, hip]

/-- Closed instance of the country-invariance theorem: the same query
against the UK selector and the all-countries selector succeeds both
times and returns the same patent list. -/
theorem c10_patents_country_invariant_witness :
    ((check ⟨2026, 10, 12⟩ wDB wReq1).toOption.map CheckResponse.patents).isSome = true ∧
    (check ⟨2026, 10, 12⟩ wDB wReq1).toOption.map CheckResponse.patents =
      (check ⟨2026, 10, 12⟩ wDB wReq2).toOption.map CheckResponse.patents := by
  refine ⟨by decide, ?_⟩
  rcases h1 : check ⟨2026, 10, 12⟩ wDB wReq1 with e1 | r1
  · have hok : ((check ⟨2026, 10, 12⟩ wDB wReq1).toOption.map CheckResponse.patents).isSome = true := by
      decide
    rw [h1] at hok
    simp [Except.toOption] at hok
  · rcases h2 : check ⟨2026, 10, 12⟩ wDB wReq2 with e2 | r2
    · have hok : ((check ⟨2026, 10, 12⟩ wDB wReq2).toOption.map CheckResponse.patents).isSome = true := by
        decide
      rw [h2] at hok
      simp [Except.toOption] at hok
    · have hp := (c10_patents_country_invariant ⟨2026, 10, 12⟩ wDB wReq1 wReq2
        r1 r2 rfl rfl h1 h2).1
      simp [Except.toOption, hp]

end TrademarkAPI

